import Mathlib

/-!
Verification of the AIO MCP Server Framework (shadowcz007/AIO_MCPServerFramework).

The repository contains two near-identical copies of the framework:
`MCPServerFramework.py` (SERVICE_VERSION "1.3.0") and the packaged copy
`aio_mcp_server_framework/core.py` (SERVICE_VERSION "1.2.2").  This file is a
shallow embedding of the parts of both copies that the claims are about:

* the JSON value model, `json.dumps(result, indent=2, ensure_ascii=False)`
  serialization and `json.loads` parsing (for the tool-result round trip);
* the protocol handlers `handle_list_tools`, `handle_call_tool`,
  `handle_list_prompts`, `handle_get_prompt` registered in
  `MCPServerCore._create_server`;
* the `ExtendedRequestContext` adapter (log methods and the two divergent
  copies of `report_progress`);
* `MCPServerFramework._trigger_shutdown`;
* the default method bodies of `BaseModuleManager`.

Python exceptions are modelled with an explicit `PyExc` type and fallible code
returns `Except PyExc _`.  Side effects that the claims mention (local log
writes, remote notifications, prints, process exit) are modelled as explicit
event traces (`List Event`, `List ShutAct`).  Remote-session behaviour
(whether a `send_log_message` / `send_progress_notification` /
`os.kill` call succeeds or raises) is an oracle carried inside the state, so
the theorems quantify over every possible behaviour of the transport.

Numbers inside JSON payloads are modelled as arbitrary-precision integers
(Python `int`); `float` payloads are outside the model.  Python `str` values
are modelled as Lean `String` (sequences of unicode scalar values).
-/

/-- Python exception values, as far as the framework observes them: the framework
only ever inspects `str(e)`, so an exception is a constructor tag plus the
string `str(e)` returns. -/
inductive PyExc where
  | valueError (msg : String)
  | notImplementedError (msg : String)
  | other (msg : String)
deriving DecidableEq

/-- Python `str(e)` for the exceptions in the model (for these exception
classes `str` returns the message they were constructed with). -/
def PyExc.toStr : PyExc → String
  | .valueError m => m
  | .notImplementedError m => m
  | .other m => m

/-- JSON values: the type of tool-result payloads handed to `json.dumps` by
`handle_call_tool`.  Object keys are strings (Python dict keys in the JSON
payload); numbers are Python ints (floats are outside the model). -/
inductive Json where
  | null : Json
  | bool : Bool → Json
  | int : Int → Json
  | str : String → Json
  | arr : List Json → Json
  | obj : List (String × Json) → Json

mutual
/-- Node-count measure on JSON values, used as parser fuel accounting. -/
def jsize : Json → Nat
  | .null => 1
  | .bool _ => 1
  | .int _ => 1
  | .str _ => 1
  | .arr xs => 1 + jsizeL xs
  | .obj kvs => 1 + jsizeKV kvs
termination_by v => sizeOf v

def jsizeL : List Json → Nat
  | [] => 1
  | x :: xs => 1 + jsize x + jsizeL xs
termination_by l => sizeOf l

def jsizeKV : List (String × Json) → Nat
  | [] => 1
  | (_, v) :: kvs => 1 + jsize v + jsizeKV kvs
termination_by l => sizeOf l
end

/-- Decimal digit character, as Python's integer formatting emits it. -/
def digitChar : Nat → Char
  | 0 => '0' | 1 => '1' | 2 => '2' | 3 => '3' | 4 => '4'
  | 5 => '5' | 6 => '6' | 7 => '7' | 8 => '8' | _ => '9'

/-- Lowercase hex digit, as Python's `\uXXXX` escape formatting emits it. -/
def hexDigitChar : Nat → Char
  | 0 => '0' | 1 => '1' | 2 => '2' | 3 => '3' | 4 => '4'
  | 5 => '5' | 6 => '6' | 7 => '7' | 8 => '8' | 9 => '9'
  | 10 => 'a' | 11 => 'b' | 12 => 'c' | 13 => 'd' | 14 => 'e' | _ => 'f'

/-- Decimal digit string of a natural number, most significant digit first:
Python `str(n)` for a nonnegative int. -/
def natToChars (n : Nat) : List Char :=
  if n < 10 then [digitChar n]
  else natToChars (n / 10) ++ [digitChar (n % 10)]
decreasing_by omega

/-- Python `str(i)` for an int: optional minus sign then decimal digits. -/
def intToChars (i : Int) : List Char :=
  if i < 0 then '-' :: natToChars i.natAbs else natToChars i.natAbs

/-- Encoding of one character inside a JSON string literal, following
`json.encoder.py_encode_basestring` (the `ensure_ascii=False` path used by
`json.dumps(..., ensure_ascii=False)`): `"` and `\` and the five named control
characters get two-character escapes, the remaining control characters get
`\u00XX`, and every other character — including non-ASCII — is emitted
verbatim. -/
def encodeChar (c : Char) : List Char :=
  if c = '"' then ['\\', '"']
  else if c = '\\' then ['\\', '\\']
  else if c = '\n' then ['\\', 'n']
  else if c = '\r' then ['\\', 'r']
  else if c = '\t' then ['\\', 't']
  else if c = Char.ofNat 8 then ['\\', 'b']
  else if c = Char.ofNat 12 then ['\\', 'f']
  else if c.toNat < 32 then
    ['\\', 'u', '0', '0', hexDigitChar (c.toNat / 16), hexDigitChar (c.toNat % 16)]
  else [c]

/-- Body of a JSON string literal (without the surrounding quotes). -/
def encodeStr (l : List Char) : List Char := l.flatMap encodeChar

/-- Indentation prefix produced by `json.dumps(..., indent=2)` at nesting
level `lvl`: `2 * lvl` spaces after each newline. -/
def jind (lvl : Nat) : List Char := List.replicate (2 * lvl) ' '

mutual
/-- Serialization of a JSON value at nesting level `lvl`, following
`json.dumps(value, indent=2, ensure_ascii=False)`: with `indent` set the item
separator is `",\n" + indent` and the key separator is `": "`; empty
containers render as `[]` / the two-brace string. -/
def ser : Json → Nat → List Char
  | .null, _ => ['n', 'u', 'l', 'l']
  | .bool true, _ => ['t', 'r', 'u', 'e']
  | .bool false, _ => ['f', 'a', 'l', 's', 'e']
  | .int i, _ => intToChars i
  | .str s, _ => '"' :: (encodeStr s.data ++ ['"'])
  | .arr [], _ => ['[', ']']
  | .arr (x :: xs), lvl =>
      '[' :: '\n' :: (jind (lvl + 1) ++ serElems x xs (lvl + 1)
        ++ '\n' :: (jind lvl ++ [']']))
  | .obj [], _ => ['{', '}']
  | .obj (kv :: kvs), lvl =>
      '{' :: '\n' :: (jind (lvl + 1) ++ serKVs kv kvs (lvl + 1)
        ++ '\n' :: (jind lvl ++ ['}']))
termination_by v _ => sizeOf v

def serElems : Json → List Json → Nat → List Char
  | x, [], lvl => ser x lvl
  | x, y :: ys, lvl =>
      ser x lvl ++ ',' :: '\n' :: (jind lvl ++ serElems y ys lvl)
termination_by x xs _ => sizeOf x + sizeOf xs

def serKV : String → Json → Nat → List Char
  | k, v, lvl => '"' :: (encodeStr k.data ++ '"' :: ':' :: ' ' :: ser v lvl)
termination_by _ v _ => sizeOf v + 1

def serKVs : (String × Json) → List (String × Json) → Nat → List Char
  | (k, v), [], lvl => serKV k v lvl
  | (k, v), kv :: kvs, lvl =>
      serKV k v lvl ++ ',' :: '\n' :: (jind lvl ++ serKVs kv kvs lvl)
termination_by kv kvs _ => sizeOf kv + sizeOf kvs
end

/-- Top-level `json.dumps(v, indent=2, ensure_ascii=False)`. -/
def dumps (v : Json) : String := String.mk (ser v 0)

/-- Whitespace characters skipped by `json.loads` between tokens (the
decoder's `WHITESPACE` class: space, tab, newline, carriage return). -/
def isWsCh (c : Char) : Bool := c = ' ' || c = '\t' || c = '\n' || c = '\r'

/-- ASCII decimal digit test, the decoder's `[0-9]` character class. -/
def isDigitCh (c : Char) : Bool := 48 ≤ c.toNat && c.toNat ≤ 57

/-- Skip inter-token whitespace, as `json.loads` does before and after every
token. -/
def skipWs : List Char → List Char
  | [] => []
  | c :: r => if isWsCh c then skipWs r else c :: r

/-- Value of a hex digit in a `\uXXXX` escape (`json.loads` accepts both
cases). -/
def hexVal (c : Char) : Option Nat :=
  if 48 ≤ c.toNat ∧ c.toNat ≤ 57 then some (c.toNat - 48)
  else if 97 ≤ c.toNat ∧ c.toNat ≤ 102 then some (c.toNat - 87)
  else if 65 ≤ c.toNat ∧ c.toNat ≤ 70 then some (c.toNat - 55)
  else none

/-- Helper: prepend a decoded character to a string-body parse result. -/
def consChar (c : Char) : Option (List Char × List Char) → Option (List Char × List Char)
  | none => none
  | some (l, r) => some (c :: l, r)

/-- Outcome of scanning one source character (or escape sequence) of a JSON
string literal: the closing quote, one decoded character, or a decode
error. -/
inductive StrTok where
  | close (rest : List Char)
  | chr (c : Char) (rest : List Char)
  | bad

/-- Decode the second surrogate of a `\uXXXX\uXXXX` pair (the decoder pairs a
high surrogate with a following low surrogate). -/
def surrStep (n : Nat) : List Char → StrTok
  | g1 :: g2 :: h5 :: h6 :: h7 :: h8 :: r4 =>
    if g1 = '\\' ∧ g2 = 'u' then
      match hexVal h5, hexVal h6, hexVal h7, hexVal h8 with
      | some a2, some b2, some c3, some d2 =>
        if 56320 ≤ ((a2 * 16 + b2) * 16 + c3) * 16 + d2 ∧
            ((a2 * 16 + b2) * 16 + c3) * 16 + d2 ≤ 57343 then
          StrTok.chr
            (Char.ofNat (65536 + (n - 55296) * 1024 +
              (((a2 * 16 + b2) * 16 + c3) * 16 + d2 - 56320))) r4
        else StrTok.bad
      | _, _, _, _ => StrTok.bad
    else StrTok.bad
  | _ => StrTok.bad

/-- Decode a `\uXXXX` escape body.  A lone surrogate escape is rejected here
(Python would keep a lone-surrogate `str` character, which Lean's `Char`
cannot represent; `dumps` never emits one, so the difference is unreachable
on the round-trip path). -/
def uStep : List Char → StrTok
  | h1 :: h2 :: h3 :: h4 :: r3 =>
    match hexVal h1, hexVal h2, hexVal h3, hexVal h4 with
    | some a, some b, some c2, some d =>
      if 55296 ≤ ((a * 16 + b) * 16 + c2) * 16 + d ∧
          ((a * 16 + b) * 16 + c2) * 16 + d ≤ 56319 then
        surrStep (((a * 16 + b) * 16 + c2) * 16 + d) r3
      else if 56320 ≤ ((a * 16 + b) * 16 + c2) * 16 + d ∧
          ((a * 16 + b) * 16 + c2) * 16 + d ≤ 57343 then StrTok.bad
      else StrTok.chr (Char.ofNat (((a * 16 + b) * 16 + c2) * 16 + d)) r3
    | _, _, _, _ => StrTok.bad
  | _ => StrTok.bad

/-- Decode the escape sequence after a backslash: the decoder's
`BACKSLASH` table plus the `\uXXXX` path. -/
def escStep : List Char → StrTok
  | [] => StrTok.bad
  | e :: r2 =>
    if e = '"' then StrTok.chr '"' r2
    else if e = '\\' then StrTok.chr '\\' r2
    else if e = '/' then StrTok.chr '/' r2
    else if e = 'b' then StrTok.chr (Char.ofNat 8) r2
    else if e = 'f' then StrTok.chr (Char.ofNat 12) r2
    else if e = 'n' then StrTok.chr '\n' r2
    else if e = 'r' then StrTok.chr '\r' r2
    else if e = 't' then StrTok.chr '\t' r2
    else if e = 'u' then uStep r2
    else StrTok.bad

/-- Scan one step of a JSON string literal body, following the decoder's
`py_scanstring` in strict mode: an unescaped quote closes the string, a
backslash starts an escape, a raw control character is an error, anything
else is one literal character. -/
def strStep : List Char → StrTok
  | [] => StrTok.bad
  | c :: r =>
    if c = '"' then StrTok.close r
    else if c = '\\' then escStep r
    else if c.toNat < 32 then StrTok.bad
    else StrTok.chr c r

/-- Parse the body of a JSON string literal after the opening quote by
iterating `strStep`.  `fuel` bounds the iteration; every call site passes
more fuel than the remaining input length, which one decoded character per
step can never exhaust. -/
def parseStrBody : Nat → List Char → Option (List Char × List Char)
  | 0, _ => none
  | fuel + 1, s =>
    match strStep s with
    | StrTok.close r => some ([], r)
    | StrTok.chr c r => consChar c (parseStrBody fuel r)
    | StrTok.bad => none

/-- Numeric value of a run of decimal digits, most significant first. -/
def digitsToNat (l : List Char) : Nat :=
  l.foldl (fun a c => a * 10 + (c.toNat - 48)) 0

/-- Reject a number that continues with a fraction or exponent: such input is
a JSON float, which is outside this model (tool results are modelled with
integer numbers only). -/
def noFloatCheck (n : Nat) (r : List Char) : Option (Nat × List Char) :=
  match r with
  | [] => some (n, [])
  | c :: _ => if c = '.' || c = 'e' || c = 'E' then none else some (n, r)

/-- Parse an unsigned JSON integer following the decoder's `NUMBER_RE`
integer part `(0|[1-9]\d*)`: a leading `0` is a complete number by itself. -/
def parseUNat (s : List Char) : Option (Nat × List Char) :=
  match s with
  | [] => none
  | c :: r =>
    if c = '0' then noFloatCheck 0 r
    else if isDigitCh c then
      noFloatCheck (digitsToNat ((c :: r).takeWhile isDigitCh))
        ((c :: r).dropWhile isDigitCh)
    else none

/-- Parse a JSON integer with optional leading minus sign. -/
def parseNumber (s : List Char) : Option (Int × List Char) :=
  match s with
  | [] => none
  | c :: r =>
    if c = '-' then
      match parseUNat r with
      | none => none
      | some (n, r2) => some (-(n : Int), r2)
    else
      match parseUNat (c :: r) with
      | none => none
      | some (n, r2) => some ((n : Int), r2)

/-- Match a fixed literal prefix (the decoder's comparison against the
`null` / `true` / `false` keywords), returning the rest of the input. -/
def stripLit : List Char → List Char → Option (List Char)
  | [], s => some s
  | _ :: _, [] => none
  | c :: cs, d :: s => if c = d then stripLit cs s else none

mutual
/-- Recursive-descent JSON value parser following `json.decoder.py_scanner`'s
`_scan_once`: dispatch on the first character to string / object / array /
literal / number parsing.  `fuel` bounds the nesting recursion; the top-level
`loads` passes more fuel than any value serialized into the input can need. -/
def parseValue : Nat → List Char → Option (Json × List Char)
  | 0, _ => none
  | _ + 1, [] => none
  | fuel + 1, c :: r =>
    if c = 'n' then
      match stripLit ['u', 'l', 'l'] r with
      | some r2 => some (Json.null, r2)
      | none => none
    else if c = 't' then
      match stripLit ['r', 'u', 'e'] r with
      | some r2 => some (Json.bool true, r2)
      | none => none
    else if c = 'f' then
      match stripLit ['a', 'l', 's', 'e'] r with
      | some r2 => some (Json.bool false, r2)
      | none => none
    else if c = '"' then
      match parseStrBody (r.length + 1) r with
      | none => none
      | some (l, r2) => some (Json.str (String.mk l), r2)
    else if c = '[' then
      match skipWs r with
      | [] => none
      | d :: r1 =>
        if d = ']' then some (Json.arr [], r1)
        else parseArrItems fuel (d :: r1) []
    else if c = '{' then
      match skipWs r with
      | [] => none
      | d :: r1 =>
        if d = '}' then some (Json.obj [], r1)
        else parseObjItems fuel (d :: r1) []
    else if c = '-' ∨ isDigitCh c then
      match parseNumber (c :: r) with
      | none => none
      | some (i, r2) => some (Json.int i, r2)
    else none
termination_by fuel _ => fuel

/-- Array-element loop of the decoder's `JSONArray`: parse a value, skip
whitespace, then continue on `,` or finish on `]`. -/
def parseArrItems : Nat → List Char → List Json → Option (Json × List Char)
  | 0, _, _ => none
  | fuel + 1, s, acc =>
    match parseValue fuel s with
    | none => none
    | some (v, r) =>
      match skipWs r with
      | [] => none
      | c :: r2 =>
        if c = ',' then parseArrItems fuel (skipWs r2) (v :: acc)
        else if c = ']' then some (Json.arr (v :: acc).reverse, r2)
        else none
termination_by fuel _ _ => fuel

/-- Key-value loop of the decoder's `JSONObject`: parse a quoted key, skip
whitespace, expect `:`, parse the value, then continue on `,` or finish on
the closing brace. -/
def parseObjItems : Nat → List Char → List (String × Json) → Option (Json × List Char)
  | 0, _, _ => none
  | fuel + 1, s, acc =>
    match s with
    | [] => none
    | c :: r =>
      if c = '"' then
        match parseStrBody (r.length + 1) r with
        | none => none
        | some (k, r1) =>
          match skipWs r1 with
          | [] => none
          | d :: r2 =>
            if d = ':' then
              match parseValue fuel (skipWs r2) with
              | none => none
              | some (v, r3) =>
                match skipWs r3 with
                | [] => none
                | e2 :: r4 =>
                  if e2 = ',' then parseObjItems fuel (skipWs r4) ((String.mk k, v) :: acc)
                  else if e2 = '}' then some (Json.obj ((String.mk k, v) :: acc).reverse, r4)
                  else none
            else none
      else none
termination_by fuel _ _ => fuel
end

/-- Top-level `json.loads`: skip leading whitespace, parse one value, then
require that only whitespace remains (else the decoder raises "Extra data",
modelled as `none`). -/
def loads (s : String) : Option Json :=
  match parseValue (s.data.length + 1) (skipWs s.data) with
  | none => none
  | some (v, r) => if skipWs r = [] then some v else none

/-- Severity levels of the Python `logging` module as the framework uses
them. -/
inductive LogLevel where
  | debug
  | info
  | warning
  | error
deriving DecidableEq

/-- A progress token from the protocol layer: the `progressToken` field of a
request's `meta`, a string or an integer. -/
inductive Token where
  | str (s : String)
  | num (n : Int)
deriving DecidableEq

/-- Opaque carrier for the Python `float` progress values: `report_progress`
only passes them through verbatim, so their arithmetic is irrelevant and they
are carried as their literal text. -/
structure FloatVal where
  lit : String
deriving DecidableEq

/-- Observable side effects of the request-context adapter and of the
protocol handlers: a write to the process-wide local log sink, a log
notification delivered to the remote session, a progress notification
delivered to the remote session, and a `print` to stdout. -/
inductive Event where
  | localLog (level : LogLevel) (msg : String)
  | remoteLog (level : LogLevel) (msg : String) (loggerName : String)
  | progressNote (token : Token) (progress : FloatVal) (total : Option FloatVal)
  | printOut (msg : String)
deriving DecidableEq

/-- The transport session as the adapter sees it: whether it exposes
`send_log_message` / `send_progress_notification` (the `hasattr` checks), and
an oracle for each that says whether a given send succeeds (`none`) or raises
a given exception (`some e`).  Quantifying over the oracle quantifies over
every transport behaviour, including a disconnected session. -/
structure Session where
  has_send_log_message : Bool
  send_log_outcome : LogLevel → String → String → Option PyExc
  has_send_progress_notification : Bool
  send_progress_outcome : Token → FloatVal → Option FloatVal → Option PyExc

/-- The `meta` object of the underlying request context: its optional
`progressToken` attribute, and its Python `repr` text (printed by the v1.3.0
debug line). -/
structure CtxMeta where
  progressToken : Option Token
  reprStr : String

/-- The underlying transport request context wrapped by the adapter:
`session` and `meta` are `Option` because the adapter probes them with
`hasattr` / truthiness checks; `request_id_str` is `str(ctx.request_id)`. -/
structure OrigCtx where
  session : Option Session
  meta : Option CtxMeta
  request_id_str : String

/-- The `ExtendedRequestContext` adapter: wraps the original context
(`self._original_ctx`, `none` when falsy).  The framework always assigns the
server logger to the adapter before use (`extended_ctx.logger = self.logger`
in `handle_call_tool`), so local log writes are modelled unconditionally. -/
structure ExtendedRequestContext where
  original_ctx : Option OrigCtx

/-- The remote-forwarding half shared by the four log methods: forward to the
client if-and-only-if the wrapped context is truthy and has a `session` with
`send_log_message`; a raise from the send is caught and logged locally at
error severity (the `except Exception` block). -/
def sendLogPart (orig : Option OrigCtx) (level : LogLevel) (message loggerName : String) :
    List Event :=
  match orig with
  | none => []
  | some o =>
    match o.session with
    | none => []
    | some s =>
      if s.has_send_log_message then
        match s.send_log_outcome level message loggerName with
        | none => [Event.remoteLog level message loggerName]
        | some e => [Event.localLog LogLevel.error ("向客户端发送日志消息失败: " ++ e.toStr)]
      else []

/-- Common body of `ExtendedRequestContext.info` / `error` / `warning` /
`debug` (the four Python methods are textually identical up to the severity,
except that `debug`'s handler logs through the root logger — still a local
log write at error severity): first the unconditional local log write at the
matching severity, then the guarded remote forwarding. -/
def logMethod (c : ExtendedRequestContext) (level : LogLevel) (message loggerName : String) :
    List Event :=
  Event.localLog level message :: sendLogPart c.original_ctx level message loggerName

/-- Python `ExtendedRequestContext.info`. -/
def ExtendedRequestContext.info (c : ExtendedRequestContext) (message : String)
    (loggerName : String := "default") : List Event :=
  logMethod c LogLevel.info message loggerName

/-- Python `ExtendedRequestContext.error`. -/
def ExtendedRequestContext.error (c : ExtendedRequestContext) (message : String)
    (loggerName : String := "default") : List Event :=
  logMethod c LogLevel.error message loggerName

/-- Python `ExtendedRequestContext.warning`. -/
def ExtendedRequestContext.warning (c : ExtendedRequestContext) (message : String)
    (loggerName : String := "default") : List Event :=
  logMethod c LogLevel.warning message loggerName

/-- Python `ExtendedRequestContext.debug`. -/
def ExtendedRequestContext.debug (c : ExtendedRequestContext) (message : String)
    (loggerName : String := "default") : List Event :=
  logMethod c LogLevel.debug message loggerName

/-- The progress token the wrapped context carries: `meta.progressToken` when
`meta` is present and truthy, else nothing. -/
def metaToken : Option OrigCtx → Option Token
  | none => none
  | some o =>
    match o.meta with
    | none => none
    | some m => m.progressToken

/-- Python `ExtendedRequestContext.report_progress` of `MCPServerFramework.py`
(SERVICE_VERSION 1.3.0): needs a truthy wrapped context with a `session`;
prints a debug line when `meta` is truthy; RETURNS WITHOUT SENDING when no
progress token is present; otherwise sends the notification through the
session, catching and locally logging a raise from the send. -/
def reportProgressV13 (c : ExtendedRequestContext) (progress : FloatVal)
    (total : Option FloatVal) : List Event :=
  match c.original_ctx with
  | none => []
  | some o =>
    match o.session with
    | none => []
    | some s =>
      let dbg : List Event :=
        match o.meta with
        | some m => [Event.printOut ("#DEBUG# progress_token " ++ m.reprStr)]
        | none => []
      match metaToken (some o) with
      | none => dbg
      | some tok =>
        dbg ++
          (if s.has_send_progress_notification then
            match s.send_progress_outcome tok progress total with
            | none => [Event.progressNote tok progress total]
            | some e =>
                [Event.localLog LogLevel.error ("向客户端发送进度通知失败: " ++ e.toStr)]
          else [])

/-- Python `ExtendedRequestContext.report_progress` of the packaged copy
`aio_mcp_server_framework/core.py` (SERVICE_VERSION 1.2.2): same shape, but
when no progress token is present it FALLS BACK to `str(ctx.request_id)` as a
synthetic token and still sends the notification. -/
def reportProgressCore (c : ExtendedRequestContext) (progress : FloatVal)
    (total : Option FloatVal) : List Event :=
  match c.original_ctx with
  | none => []
  | some o =>
    match o.session with
    | none => []
    | some s =>
      let tok : Token :=
        match metaToken (some o) with
        | none => Token.str o.request_id_str
        | some t => t
      if s.has_send_progress_notification then
        match s.send_progress_outcome tok progress total with
        | none => [Event.progressNote tok progress total]
        | some e =>
            [Event.localLog LogLevel.error ("向客户端发送进度通知失败: " ++ e.toStr)]
      else []

/-- Does an event trace contain a progress notification to the session? -/
def hasProgressNote (evs : List Event) : Bool :=
  evs.any fun ev =>
    match ev with
    | Event.progressNote _ _ _ => true
    | _ => false

/-- Protocol tool descriptor (`mcp.types.Tool`), as far as the handlers
inspect it. -/
structure Tool where
  name : String
  description : String
  inputSchema : Json

/-- Prompt-template argument descriptor (`mcp.types.PromptArgument`). -/
structure PromptArgument where
  name : String
  description : String
  required : Bool

/-- Prompt-template descriptor (`mcp.types.Prompt`). -/
structure Prompt where
  name : String
  description : String
  arguments : List PromptArgument

/-- Message role tags of a rendered prompt. -/
inductive Role where
  | user
  | assistant
deriving DecidableEq

/-- One role-tagged message of a rendered prompt (`mcp.types.PromptMessage`
with text content). -/
structure PromptMessage where
  role : Role
  text : String

/-- Rendered prompt content (`mcp.types.GetPromptResult`). -/
structure GetPromptResult where
  description : String
  messages : List PromptMessage

/-- A `types.TextContent` item of a tool-call result envelope: the `type`
field (always the string "text" here) and the text payload. -/
structure TextContent where
  ctype : String
  text : String
deriving DecidableEq

/-- A tool invocation's `arguments` dict (`Dict | None` before the handler's
truthiness check resolves the `None`). -/
abbrev Args := List (String × Json)

/-- A prompt invocation's `arguments` dict (`Dict[str, str] | None`). -/
abbrev StrDict := List (String × String)

/-- A module manager as the server core calls it: the four capabilities used
by the protocol handlers, each an arbitrary (possibly raising) function, so
the theorems quantify over every module implementation. -/
structure ModuleManager where
  call_tool : String → Args → ExtendedRequestContext → Except PyExc Json
  get_tools : Except PyExc (List Tool)
  get_prompt_templates : Except PyExc (List Prompt)
  get_prompt_content : String → Option StrDict → Except PyExc GetPromptResult

/-- The server core's state that the four registered handlers close over: the
module manager and the two optional external override functions. -/
structure MCPServerCore where
  module_manager : ModuleManager
  get_prompt_templates_func : Option (Unit → Except PyExc (List Prompt))
  get_prompt_content_func : Option (String → Option StrDict → Except PyExc GetPromptResult)

/-- Python truthiness of the `arguments` payload as `handle_call_tool` tests
it with `if not arguments`: `None` and the empty dict are falsy. -/
def truthyArgs : Option Args → Bool
  | none => false
  | some [] => false
  | some (_ :: _) => true

/-- The registered `handle_list_tools`: one line, no exception handling —
whatever `module_manager.get_tools()` does (value or raise) is the handler's
outcome. -/
def handle_list_tools (core : MCPServerCore) : Except PyExc (List Tool) :=
  core.module_manager.get_tools

/-- The registered `handle_call_tool`: inside one `try`, raise
`ValueError("Missing arguments")` on a falsy `arguments`, else build a fresh
`ExtendedRequestContext` over the current request context and delegate to the
module; on success wrap `json.dumps(result, indent=2, ensure_ascii=False)` in
a single text item; the `except Exception` block prints and converts ANY
raise into a single `"Error: " + str(e)` text item — the handler itself never
raises. -/
def handle_call_tool (core : MCPServerCore) (reqCtx : Option OrigCtx) (name : String)
    (arguments : Option Args) : List Event × Except PyExc (List TextContent) :=
  match (if truthyArgs arguments then
          core.module_manager.call_tool name (arguments.getD [])
            (ExtendedRequestContext.mk reqCtx)
        else Except.error (PyExc.valueError "Missing arguments")) with
  | Except.ok result => ([], Except.ok [TextContent.mk "text" (dumps result)])
  | Except.error e =>
      ([Event.printOut ("Error in tool " ++ name ++ ": " ++ e.toStr)],
       Except.ok [TextContent.mk "text" ("Error: " ++ e.toStr)])

/-- The delegate `handle_list_prompts` calls inside its `try`: the external
override when one was supplied, else the module manager's method. -/
def listPromptsDelegate (core : MCPServerCore) : Except PyExc (List Prompt) :=
  match core.get_prompt_templates_func with
  | some f => f ()
  | none => core.module_manager.get_prompt_templates

/-- The registered `handle_list_prompts`: delegate inside a `try`; the
`except Exception` block logs the error locally and returns the empty
list — the handler itself never raises. -/
def handle_list_prompts (core : MCPServerCore) : List Event × Except PyExc (List Prompt) :=
  match listPromptsDelegate core with
  | Except.ok r => ([], Except.ok r)
  | Except.error e =>
      ([Event.localLog LogLevel.error ("获取提示模板列表出错: " ++ e.toStr)], Except.ok [])

/-- Python `f"{arguments}"` for a `Dict[str, str] | None`, as interpolated
into the handler's debug log line (string keys and values in repr quotes;
escaping inside the reprs is not modelled — no claim depends on it). -/
def argsRepr : Option StrDict → String
  | none => "None"
  | some l =>
      "\x7b" ++
        String.intercalate ", " (l.map fun kv => "'" ++ kv.1 ++ "': '" ++ kv.2 ++ "'") ++
      "\x7d"

/-- The delegate `handle_get_prompt` calls inside its `try`: the external
override when one was supplied, else the module manager's method. -/
def getPromptDelegate (core : MCPServerCore) (name : String) (arguments : Option StrDict) :
    Except PyExc GetPromptResult :=
  match core.get_prompt_content_func with
  | some f => f name arguments
  | none => core.module_manager.get_prompt_content name arguments

/-- The registered `handle_get_prompt`: logs a debug line, delegates inside a
`try`; the `except Exception` block logs the error locally and then
RE-RAISES the same exception (`raise`), so a failure propagates unchanged. -/
def handle_get_prompt (core : MCPServerCore) (name : String) (arguments : Option StrDict) :
    List Event × Except PyExc GetPromptResult :=
  let dbg := Event.localLog LogLevel.debug
    ("获取提示模板: " ++ name ++ " 参数: " ++ argsRepr arguments)
  match getPromptDelegate core name arguments with
  | Except.ok r => ([dbg], Except.ok r)
  | Except.error e =>
      ([dbg, Event.localLog LogLevel.error ("获取提示模板内容出错: " ++ e.toStr)],
       Except.error e)

/-- The two self-directed termination signals `_trigger_shutdown` can send:
`signal.CTRL_BREAK_EVENT` on win32, `signal.SIGTERM` elsewhere. -/
inductive Sig where
  | ctrlBreak
  | sigterm
deriving DecidableEq

/-- Observable actions of `MCPServerFramework._trigger_shutdown`: setting the
process-wide shutdown event, a successful `os.kill` self-signal, a local
error log, and a `sys.exit` with an exit code. -/
inductive ShutAct where
  | setShutdownEvent
  | killSignal (sig : Sig)
  | logError (msg : String)
  | exitProcess (code : Nat)
deriving DecidableEq

/-- Platform and `os.kill` behaviour for a run of `_trigger_shutdown`:
`sys.platform == "win32"`, and an oracle saying whether `os.kill(pid, sig)`
succeeds (`none`) or raises (`some e`). -/
structure ShutdownEnv where
  win32 : Bool
  kill_outcome : Sig → Option PyExc

/-- Python `MCPServerFramework._trigger_shutdown`: set `self._shutdown_event`,
then send the platform-appropriate self-directed signal; if `os.kill` itself
raises, log the failure and call `sys.exit(1)`. -/
def trigger_shutdown (env : ShutdownEnv) : List ShutAct :=
  ShutAct.setShutdownEvent ::
    (if env.win32 then
      match env.kill_outcome Sig.ctrlBreak with
      | none => [ShutAct.killSignal Sig.ctrlBreak]
      | some e =>
          [ShutAct.logError ("发送CTRL_BREAK_EVENT失败: " ++ e.toStr), ShutAct.exitProcess 1]
    else
      match env.kill_outcome Sig.sigterm with
      | none => [ShutAct.killSignal Sig.sigterm]
      | some e =>
          [ShutAct.logError ("发送SIGTERM失败: " ++ e.toStr), ShutAct.exitProcess 1])

namespace BaseModuleManager

/-- Default body of `BaseModuleManager.initialize` (named `initializeBase`
here because `initialize` is a reserved word in this development): raises
`NotImplementedError` for every keyword-argument mapping. -/
def initializeBase (kwargs : StrDict) : Except PyExc Unit :=
  Except.error (PyExc.notImplementedError "子类必须实现initialize方法")

/-- Default body of `BaseModuleManager.get_tools`: raises
`NotImplementedError`. -/
def get_tools : Except PyExc (List Tool) :=
  Except.error (PyExc.notImplementedError "子类必须实现get_tools方法")

/-- Default body of `BaseModuleManager.call_tool`: raises
`NotImplementedError` for every name, argument mapping and context. -/
def call_tool (name : String) (arguments : Args) (ctx : Option ExtendedRequestContext) :
    Except PyExc Json :=
  Except.error (PyExc.notImplementedError "子类必须实现call_tool方法")

/-- Default body of `BaseModuleManager.get_prompt_templates`: returns the
empty list. -/
def get_prompt_templates : Except PyExc (List Prompt) :=
  Except.ok []

/-- Default body of `BaseModuleManager.get_prompt_content`: raises
`ValueError` for every template name and argument mapping. -/
def get_prompt_content (name : String) (arguments : Option StrDict) :
    Except PyExc GetPromptResult :=
  Except.error (PyExc.valueError ("未找到提示模板: " ++ name))

end BaseModuleManager

theorem charEq_of_toNat {a b : Char} (h : a.toNat = b.toNat) : a = b :=
  Char.ext (UInt32.ext h)

theorem isDigitCh_toNat {c : Char} (h : isDigitCh c = true) :
    48 ≤ c.toNat ∧ c.toNat ≤ 57 := by
  simpa [isDigitCh] using h

theorem isDigitCh_ne_of_out {c : Char} (h : isDigitCh c = true) (d : Char)
    (hd : d.toNat < 48 ∨ 57 < d.toNat) : c ≠ d := by
  obtain ⟨h1, h2⟩ := isDigitCh_toNat h
  intro he
  rw [he] at h1 h2
  omega

theorem isDigitCh_not_ws {c : Char} (h : isDigitCh c = true) : isWsCh c = false := by
  have hs : c ≠ ' ' := isDigitCh_ne_of_out h ' ' (by decide)
  have ht : c ≠ '\t' := isDigitCh_ne_of_out h '\t' (by decide)
  have hn : c ≠ '\n' := isDigitCh_ne_of_out h '\n' (by decide)
  have hr : c ≠ '\r' := isDigitCh_ne_of_out h '\r' (by decide)
  simp [isWsCh, hs, ht, hn, hr]

theorem skipWs_cons_ws {c : Char} (h : isWsCh c = true) (s : List Char) :
    skipWs (c :: s) = skipWs s := by
  simp [skipWs, h]

theorem skipWs_cons_not_ws {c : Char} (h : isWsCh c = false) (s : List Char) :
    skipWs (c :: s) = c :: s := by
  simp [skipWs, h]

theorem skipWs_replicate_space (m : Nat) (s : List Char) :
    skipWs (List.replicate m ' ' ++ s) = skipWs s := by
  induction m with
  | zero => rfl
  | succ k ih => simpa [List.replicate_succ, skipWs, isWsCh] using ih

theorem skipWs_jind (lvl : Nat) (s : List Char) : skipWs (jind lvl ++ s) = skipWs s :=
  skipWs_replicate_space (2 * lvl) s

theorem hexVal_hexDigitChar : ∀ n, n < 16 → hexVal (hexDigitChar n) = some n := by decide

theorem digitChar_toNat : ∀ d, d < 10 → (digitChar d).toNat = 48 + d := by decide

theorem isDigitCh_digitChar : ∀ d, d < 10 → isDigitCh (digitChar d) = true := by decide

theorem digitChar_ne_zero : ∀ d, d < 10 → d ≠ 0 → digitChar d ≠ '0' := by decide

theorem strStep_encodeChar (c : Char) (s : List Char) :
    strStep (encodeChar c ++ s) = StrTok.chr c s := by
  by_cases h1 : c = '"'
  · subst h1; simp [encodeChar, strStep, escStep]
  by_cases h2 : c = '\\'
  · subst h2; simp [encodeChar, strStep, escStep]
  by_cases h3 : c = '\n'
  · subst h3; simp [encodeChar, strStep, escStep]
  by_cases h4 : c = '\r'
  · subst h4; simp [encodeChar, strStep, escStep]
  by_cases h5 : c = '\t'
  · subst h5; simp [encodeChar, strStep, escStep]
  by_cases h6 : c = Char.ofNat 8
  · subst h6; simp [encodeChar, strStep, escStep]
  by_cases h7 : c = Char.ofNat 12
  · subst h7; simp [encodeChar, strStep, escStep]
  by_cases h8 : c.toNat < 32
  · have henc : encodeChar c =
        ['\\', 'u', '0', '0', hexDigitChar (c.toNat / 16), hexDigitChar (c.toNat % 16)] := by
      simp [encodeChar, h1, h2, h3, h4, h5, h6, h7, h8]
    have hhex1 : hexVal (hexDigitChar (c.toNat / 16)) = some (c.toNat / 16) :=
      hexVal_hexDigitChar _ (by omega)
    have hhex2 : hexVal (hexDigitChar (c.toNat % 16)) = some (c.toNat % 16) :=
      hexVal_hexDigitChar _ (by omega)
    have hz : hexVal '0' = some 0 := by decide
    rw [henc]
    simp only [List.cons_append, List.nil_append]
    simp [strStep, escStep, uStep, hz, hhex1, hhex2]
    rw [if_neg (by omega), if_neg (by omega)]
    have hchr : ∀ m : Nat, m = c.toNat → StrTok.chr (Char.ofNat m) s = StrTok.chr c s := by
      intro m hm
      rw [hm, Char.ofNat_toNat]
    exact hchr _ (by omega)
  · have henc : encodeChar c = [c] := by
      simp [encodeChar, h1, h2, h3, h4, h5, h6, h7, h8]
    rw [henc]
    simp only [List.cons_append, List.nil_append, strStep]
    rw [if_neg h1, if_neg h2, if_neg (by omega)]

theorem parseStrBody_encodeStr (l : List Char) : ∀ (rest : List Char) (fuel : Nat),
    l.length < fuel →
    parseStrBody fuel (encodeStr l ++ '"' :: rest) = some (l, rest) := by
  induction l with
  | nil =>
    intro rest fuel hf
    cases fuel with
    | zero => exact absurd hf (by simp)
    | succ f => simp [encodeStr, parseStrBody, strStep]
  | cons c tl ih =>
    intro rest fuel hf
    cases fuel with
    | zero => exact absurd hf (by simp)
    | succ f =>
      have hflat : encodeStr (c :: tl) = encodeChar c ++ encodeStr tl := by
        simp [encodeStr]
      rw [hflat, List.append_assoc]
      simp only [parseStrBody, strStep_encodeChar]
      rw [ih rest f (by simp only [List.length_cons] at hf; omega)]
      rfl

theorem natToChars_lt10 {n : Nat} (h : n < 10) : natToChars n = [digitChar n] := by
  rw [natToChars, if_pos h]

theorem natToChars_ge10 {n : Nat} (h : ¬n < 10) :
    natToChars n = natToChars (n / 10) ++ [digitChar (n % 10)] := by
  rw [natToChars]
  rw [if_neg h]

theorem natToChars_shape (n : Nat) :
    ∃ c r, natToChars n = c :: r ∧ isDigitCh c = true ∧ (0 < n → c ≠ '0') := by
  induction n using Nat.strong_induction_on with
  | _ n ih =>
    by_cases h : n < 10
    · exact ⟨digitChar n, [], natToChars_lt10 h, isDigitCh_digitChar n h,
        fun hn => digitChar_ne_zero n h (by omega)⟩
    · obtain ⟨c, r, hc, hd, hz⟩ := ih (n / 10) (by omega)
      refine ⟨c, r ++ [digitChar (n % 10)], ?_, hd, fun _ => hz (by omega)⟩
      rw [natToChars_ge10 h, hc]
      rfl

theorem natToChars_digits (n : Nat) : ∀ c ∈ natToChars n, isDigitCh c = true := by
  induction n using Nat.strong_induction_on with
  | _ n ih =>
    by_cases h : n < 10
    · rw [natToChars_lt10 h]
      intro c hc
      simp only [List.mem_singleton] at hc
      subst hc
      exact isDigitCh_digitChar n h
    · rw [natToChars_ge10 h]
      intro c hc
      rcases List.mem_append.mp hc with h1 | h2
      · exact ih (n / 10) (by omega) c h1
      · simp only [List.mem_singleton] at h2
        subst h2
        exact isDigitCh_digitChar _ (by omega)

theorem digitsToNat_natToChars (n : Nat) : digitsToNat (natToChars n) = n := by
  induction n using Nat.strong_induction_on with
  | _ n ih =>
    by_cases h : n < 10
    · rw [natToChars_lt10 h]
      have hd := digitChar_toNat n h
      simp [digitsToNat, hd]
    · rw [natToChars_ge10 h]
      have hih := ih (n / 10) (by omega)
      unfold digitsToNat at hih ⊢
      rw [List.foldl_append, hih]
      have hd := digitChar_toNat (n % 10) (by omega)
      simp [hd]
      omega

theorem takeWhile_all_append {p : Char → Bool} (l1 l2 : List Char)
    (h : ∀ c ∈ l1, p c = true)
    (h2 : l2 = [] ∨ ∃ c r, l2 = c :: r ∧ p c = false) :
    (l1 ++ l2).takeWhile p = l1 ∧ (l1 ++ l2).dropWhile p = l2 := by
  induction l1 with
  | nil =>
    simp only [List.nil_append]
    rcases h2 with rfl | ⟨c, r, rfl, hc⟩
    · exact ⟨rfl, rfl⟩
    · simp [List.takeWhile_cons, List.dropWhile_cons, hc]
  | cons a l ih =>
    have ha : p a = true := h a (List.mem_cons_self a l)
    have ih' := ih fun c hc => h c (List.mem_cons_of_mem a hc)
    simp [List.takeWhile_cons, List.dropWhile_cons, ha, ih'.1, ih'.2]

/-- What may legally follow a serialized number so that the decoder's number
regex stops exactly at the number's end: not a digit, and not the start of a
fraction or exponent. -/
def numberSafe (s : List Char) : Prop :=
  ∀ c r, s = c :: r → isDigitCh c = false ∧ c ≠ '.' ∧ c ≠ 'e' ∧ c ≠ 'E'

theorem noFloatCheck_safe (n : Nat) {r : List Char} (h : numberSafe r) :
    noFloatCheck n r = some (n, r) := by
  cases r with
  | nil => rfl
  | cons c r' =>
    obtain ⟨_, h1, h2, h3⟩ := h c r' rfl
    simp [noFloatCheck, h1, h2, h3]

theorem parseUNat_natToChars (n : Nat) {rest : List Char} (h : numberSafe rest) :
    parseUNat (natToChars n ++ rest) = some (n, rest) := by
  by_cases h0 : n = 0
  · subst h0
    rw [natToChars_lt10 (by omega)]
    show parseUNat ('0' :: rest) = some (0, rest)
    simp only [parseUNat]
    rw [if_pos trivial]
    exact noFloatCheck_safe 0 h
  · obtain ⟨c, r, hc, hd, hz⟩ := natToChars_shape n
    have hcne : c ≠ '0' := hz (by omega)
    have hdig : ∀ x ∈ c :: r, isDigitCh x = true := by
      rw [← hc]
      exact natToChars_digits n
    have hsafe2 : rest = [] ∨ ∃ d rr, rest = d :: rr ∧ isDigitCh d = false := by
      cases rest with
      | nil => exact Or.inl rfl
      | cons d rr => exact Or.inr ⟨d, rr, rfl, (h d rr rfl).1⟩
    have htw := takeWhile_all_append (c :: r) rest hdig hsafe2
    simp only [List.cons_append] at htw
    rw [hc, List.cons_append]
    simp only [parseUNat]
    rw [if_neg hcne, if_pos (hdig c (List.mem_cons_self c r)), htw.1, htw.2, ← hc,
      digitsToNat_natToChars]
    exact noFloatCheck_safe n h

theorem parseNumber_intToChars (i : Int) {rest : List Char} (h : numberSafe rest) :
    parseNumber (intToChars i ++ rest) = some (i, rest) := by
  by_cases hi : i < 0
  · rw [intToChars, if_pos hi, List.cons_append]
    simp only [parseNumber]
    rw [if_pos trivial, parseUNat_natToChars i.natAbs h]
    have hval : -((i.natAbs : Nat) : Int) = i := by omega
    show some (-((i.natAbs : Nat) : Int), rest) = some (i, rest)
    rw [hval]
  · rw [intToChars, if_neg hi]
    obtain ⟨c, r, hc, hd, _⟩ := natToChars_shape i.natAbs
    have hcm : c ≠ '-' := isDigitCh_ne_of_out hd '-' (by decide)
    rw [hc, List.cons_append]
    simp only [parseNumber]
    rw [if_neg hcm, ← List.cons_append, ← hc, parseUNat_natToChars i.natAbs h]
    have hval : ((i.natAbs : Nat) : Int) = i := by omega
    show some (((i.natAbs : Nat) : Int), rest) = some (i, rest)
    rw [hval]

/-- What may follow a serialized value in `dumps` output: nothing, a comma
(before the `\n` + indent of the next element), or a newline (before the
closing bracket's indent). -/
def isDelim (s : List Char) : Bool :=
  match s with
  | [] => true
  | c :: _ => c = ',' || c = '\n'

theorem numberSafe_of_isDelim {s : List Char} (h : isDelim s = true) : numberSafe s := by
  intro c r hs
  subst hs
  simp only [isDelim, Bool.or_eq_true, decide_eq_true_eq] at h
  rcases h with rfl | rfl
  · exact ⟨by decide, by decide, by decide, by decide⟩
  · exact ⟨by decide, by decide, by decide, by decide⟩

theorem encodeChar_len_pos (c : Char) : 1 ≤ (encodeChar c).length := by
  unfold encodeChar
  split_ifs <;> simp

theorem encodeStr_len (l : List Char) : l.length ≤ (encodeStr l).length := by
  induction l with
  | nil => simp [encodeStr]
  | cons c tl ih =>
    have h1 := encodeChar_len_pos c
    simp only [encodeStr, List.flatMap_cons, List.length_append, List.length_cons] at *
    omega

theorem jsize_pos (v : Json) : 1 ≤ jsize v := by
  cases v <;> simp [jsize]

theorem jsizeL_pos (l : List Json) : 1 ≤ jsizeL l := by
  cases l <;> simp [jsizeL] <;> omega

theorem jsizeKV_pos (l : List (String × Json)) : 1 ≤ jsizeKV l := by
  cases l with
  | nil => simp [jsizeKV]
  | cons kv kvs =>
    obtain ⟨k, v⟩ := kv
    simp [jsizeKV]
    omega

theorem ser_head (v : Json) (lvl : Nat) :
    ∃ c r, ser v lvl = c :: r ∧ isWsCh c = false ∧ c ≠ ']' ∧ c ≠ '}' := by
  cases v with
  | null => exact ⟨'n', ['u', 'l', 'l'], by simp [ser], by decide, by decide, by decide⟩
  | bool b =>
    cases b with
    | true => exact ⟨'t', ['r', 'u', 'e'], by simp [ser], by decide, by decide, by decide⟩
    | false => exact ⟨'f', ['a', 'l', 's', 'e'], by simp [ser], by decide, by decide, by decide⟩
  | int i =>
    by_cases hi : i < 0
    · exact ⟨'-', natToChars i.natAbs, by simp [ser, intToChars, hi], by decide, by decide,
        by decide⟩
    · obtain ⟨c, r, hc, hd, _⟩ := natToChars_shape i.natAbs
      exact ⟨c, r, by simp [ser, intToChars, hi, hc], isDigitCh_not_ws hd,
        isDigitCh_ne_of_out hd ']' (by decide), isDigitCh_ne_of_out hd '}' (by decide)⟩
  | str s =>
    exact ⟨'"', encodeStr s.data ++ ['"'], by simp [ser], by decide, by decide, by decide⟩
  | arr xs =>
    cases xs with
    | nil => exact ⟨'[', [']'], by simp [ser], by decide, by decide, by decide⟩
    | cons x xs =>
      exact ⟨'[', '\n' :: (jind (lvl + 1) ++ serElems x xs (lvl + 1)
        ++ '\n' :: (jind lvl ++ [']'])), by simp [ser], by decide, by decide, by decide⟩
  | obj kvs =>
    cases kvs with
    | nil => exact ⟨'{', ['}'], by simp [ser], by decide, by decide, by decide⟩
    | cons kv kvs =>
      exact ⟨'{', '\n' :: (jind (lvl + 1) ++ serKVs kv kvs (lvl + 1)
        ++ '\n' :: (jind lvl ++ ['}'])), by simp [ser], by decide, by decide, by decide⟩

theorem serElems_head (x : Json) (xs : List Json) (lvl : Nat) :
    ∃ c r, serElems x xs lvl = c :: r ∧ isWsCh c = false ∧ c ≠ ']' ∧ c ≠ '}' := by
  obtain ⟨c, r, hc, hw, h1, h2⟩ := ser_head x lvl
  cases xs with
  | nil => exact ⟨c, r, by simp [serElems, hc], hw, h1, h2⟩
  | cons y ys =>
    exact ⟨c, r ++ ',' :: '\n' :: (jind lvl ++ serElems y ys lvl),
      by simp [serElems, hc], hw, h1, h2⟩

theorem serKVs_head (kv : String × Json) (kvs : List (String × Json)) (lvl : Nat) :
    ∃ r, serKVs kv kvs lvl = '"' :: r := by
  obtain ⟨k, v⟩ := kv
  cases kvs with
  | nil => exact ⟨encodeStr k.data ++ '"' :: ':' :: ' ' :: ser v lvl, by simp [serKVs, serKV]⟩
  | cons kv2 kvs2 =>
    exact ⟨(encodeStr k.data ++ '"' :: ':' :: ' ' :: ser v lvl) ++
      ',' :: '\n' :: (jind lvl ++ serKVs kv2 kvs2 lvl), by simp [serKVs, serKV]⟩

theorem isDigitCh_facts {c : Char} (h : isDigitCh c = true) :
    c ≠ 'n' ∧ c ≠ 't' ∧ c ≠ 'f' ∧ c ≠ '"' ∧ c ≠ '[' ∧ c ≠ '{' :=
  ⟨isDigitCh_ne_of_out h 'n' (by decide), isDigitCh_ne_of_out h 't' (by decide),
   isDigitCh_ne_of_out h 'f' (by decide), isDigitCh_ne_of_out h '"' (by decide),
   isDigitCh_ne_of_out h '[' (by decide), isDigitCh_ne_of_out h '{' (by decide)⟩

theorem parse_ser_aux : ∀ fuel : Nat,
    (∀ v lvl rest, jsize v < fuel → isDelim rest = true →
      parseValue fuel (ser v lvl ++ rest) = some (v, rest)) ∧
    (∀ x xs acc lvlE lvlC rest, jsizeL (x :: xs) ≤ fuel → isDelim rest = true →
      parseArrItems fuel (serElems x xs lvlE ++ '\n' :: (jind lvlC ++ ']' :: rest)) acc =
        some (Json.arr (acc.reverse ++ x :: xs), rest)) ∧
    (∀ k v kvs acc lvlE lvlC rest, jsizeKV ((k, v) :: kvs) ≤ fuel → isDelim rest = true →
      parseObjItems fuel (serKVs (k, v) kvs lvlE ++ '\n' :: (jind lvlC ++ '}' :: rest)) acc =
        some (Json.obj (acc.reverse ++ (k, v) :: kvs), rest)) := by
  intro fuel
  induction fuel with
  | zero =>
    refine ⟨fun v lvl rest hs _ => absurd hs (by have := jsize_pos v; omega),
      fun x xs acc lvlE lvlC rest hs _ => absurd hs ?_,
      fun k v kvs acc lvlE lvlC rest hs _ => absurd hs ?_⟩
    · have h1 := jsize_pos x
      have h2 := jsizeL_pos xs
      simp [jsizeL]
    · have h1 := jsize_pos v
      have h2 := jsizeKV_pos kvs
      simp [jsizeKV]
  | succ f ih =>
    obtain ⟨ihP, ihQ, ihR⟩ := ih
    refine ⟨?_, ?_, ?_⟩
    · -- parseValue on a serialized value
      intro v lvl rest hs hd
      cases v with
      | null =>
        simp only [ser, List.cons_append, List.nil_append]
        simp [parseValue, stripLit]
      | bool b =>
        cases b with
        | true =>
          simp only [ser, List.cons_append, List.nil_append]
          simp [parseValue, stripLit]
        | false =>
          simp only [ser, List.cons_append, List.nil_append]
          simp [parseValue, stripLit]
      | int i =>
        have hnum := parseNumber_intToChars i (numberSafe_of_isDelim hd)
        by_cases hi : i < 0
        · rw [intToChars, if_pos hi, List.cons_append] at hnum
          simp only [ser]
          rw [intToChars, if_pos hi, List.cons_append]
          simp only [parseValue]
          rw [if_neg (by decide), if_neg (by decide), if_neg (by decide), if_neg (by decide),
            if_neg (by decide), if_neg (by decide), if_pos (Or.inl (by trivial)), hnum]
        · obtain ⟨c, r, hc, hdg, _⟩ := natToChars_shape i.natAbs
          obtain ⟨hn1, hn2, hn3, hn4, hn5, hn6⟩ := isDigitCh_facts hdg
          rw [intToChars, if_neg hi, hc, List.cons_append] at hnum
          simp only [ser]
          rw [intToChars, if_neg hi, hc, List.cons_append]
          simp only [parseValue]
          rw [if_neg hn1, if_neg hn2, if_neg hn3, if_neg hn4, if_neg hn5, if_neg hn6,
            if_pos (Or.inr hdg), hnum]
      | str s =>
        simp only [ser, List.cons_append, List.append_assoc, List.nil_append]
        simp only [parseValue]
        rw [if_neg (by decide), if_neg (by decide), if_neg (by decide), if_pos (by trivial)]
        have hlen : s.data.length < (encodeStr s.data ++ '"' :: rest).length + 1 := by
          have := encodeStr_len s.data
          simp only [List.length_append, List.length_cons]
          omega
        rw [parseStrBody_encodeStr s.data rest _ hlen]
      | arr xs =>
        cases xs with
        | nil =>
          simp only [ser, List.cons_append, List.nil_append]
          simp only [parseValue]
          rw [if_neg (by decide), if_neg (by decide), if_neg (by decide), if_neg (by decide),
            if_pos (by trivial), skipWs_cons_not_ws (by decide)]
          simp
        | cons x xs =>
          simp only [ser, List.cons_append, List.append_assoc, List.nil_append]
          simp only [parseValue]
          rw [if_neg (by decide), if_neg (by decide), if_neg (by decide), if_neg (by decide),
            if_pos (by trivial), skipWs_cons_ws (by decide), skipWs_jind]
          obtain ⟨c, r, hc, hw, hne1, _⟩ := serElems_head x xs (lvl + 1)
          rw [hc, List.cons_append, skipWs_cons_not_ws hw]
          have hq := ihQ x xs [] (lvl + 1) lvl rest
            (by simp only [jsize] at hs; omega) hd
          simp [hne1]
          rw [← List.cons_append, ← hc]
          simp [hq]
      | obj kvs =>
        cases kvs with
        | nil =>
          simp only [ser, List.cons_append, List.nil_append]
          simp only [parseValue]
          rw [if_neg (by decide), if_neg (by decide), if_neg (by decide), if_neg (by decide),
            if_neg (by decide), if_pos (by trivial), skipWs_cons_not_ws (by decide)]
          simp
        | cons kv kvs =>
          obtain ⟨k, v⟩ := kv
          simp only [ser, List.cons_append, List.append_assoc, List.nil_append]
          simp only [parseValue]
          rw [if_neg (by decide), if_neg (by decide), if_neg (by decide), if_neg (by decide),
            if_neg (by decide), if_pos (by trivial), skipWs_cons_ws (by decide), skipWs_jind]
          obtain ⟨r, hr⟩ := serKVs_head (k, v) kvs (lvl + 1)
          rw [hr, List.cons_append, skipWs_cons_not_ws (by decide)]
          have hrr := ihR k v kvs [] (lvl + 1) lvl rest
            (by simp only [jsize] at hs; omega) hd
          simp
          rw [← List.cons_append, ← hr]
          simp [hrr]
    · -- parseArrItems on serialized elements
      intro x xs acc lvlE lvlC rest hsz hd
      cases xs with
      | nil =>
        simp only [parseArrItems]
        rw [show serElems x [] lvlE = ser x lvlE from by simp [serElems]]
        have hp := ihP x lvlE ('\n' :: (jind lvlC ++ ']' :: rest))
          (by simp only [jsizeL] at hsz; have := jsizeL_pos ([] : List Json); omega)
          (by simp [isDelim])
        have hws : skipWs ('\n' :: (jind lvlC ++ ']' :: rest)) = ']' :: rest := by
          rw [skipWs_cons_ws (by decide), skipWs_jind, skipWs_cons_not_ws (by decide)]
        rw [hp]
        simp [hws]
      | cons y ys =>
        simp only [parseArrItems]
        rw [show serElems x (y :: ys) lvlE =
          ser x lvlE ++ ',' :: '\n' :: (jind lvlE ++ serElems y ys lvlE) from by
            simp [serElems]]
        simp only [List.cons_append, List.append_assoc]
        have hp := ihP x lvlE
          (',' :: '\n' :: (jind lvlE ++ (serElems y ys lvlE ++ '\n' :: (jind lvlC ++ ']' :: rest))))
          (by simp only [jsizeL] at hsz; have := jsize_pos y; have := jsizeL_pos ys; omega)
          (by simp [isDelim])
        have hws1 : skipWs
            (',' :: '\n' :: (jind lvlE ++ (serElems y ys lvlE ++ '\n' :: (jind lvlC ++ ']' :: rest)))) =
            ',' :: '\n' :: (jind lvlE ++ (serElems y ys lvlE ++ '\n' :: (jind lvlC ++ ']' :: rest))) :=
          skipWs_cons_not_ws (by decide) _
        have hws2 : skipWs ('\n' :: (jind lvlE ++ (serElems y ys lvlE ++ '\n' :: (jind lvlC ++ ']' :: rest)))) =
            serElems y ys lvlE ++ '\n' :: (jind lvlC ++ ']' :: rest) := by
          obtain ⟨c, r, hc, hw, _, _⟩ := serElems_head y ys lvlE
          rw [skipWs_cons_ws (by decide), skipWs_jind, hc, List.cons_append,
            skipWs_cons_not_ws hw, ← List.cons_append, ← hc]
        have hq := ihQ y ys (x :: acc) lvlE lvlC rest
          (by simp only [jsizeL] at hsz ⊢; have := jsize_pos x; omega) hd
        rw [hp]
        simp [hws1, hws2, hq, List.append_assoc]
    · -- parseObjItems on serialized key-value pairs
      intro k v kvs acc lvlE lvlC rest hsz hd
      cases kvs with
      | nil =>
        rw [show serKVs (k, v) [] lvlE = serKV k v lvlE from by simp [serKVs]]
        rw [show serKV k v lvlE = '"' :: (encodeStr k.data ++ '"' :: ':' :: ' ' :: ser v lvlE)
          from by simp [serKV]]
        simp only [List.cons_append, List.append_assoc]
        simp only [parseObjItems]
        have hlen : k.data.length <
            (encodeStr k.data ++ '"' :: ':' :: ' ' ::
              (ser v lvlE ++ '\n' :: (jind lvlC ++ '}' :: rest))).length + 1 := by
          have := encodeStr_len k.data
          simp only [List.length_append, List.length_cons]
          omega
        have hkey := parseStrBody_encodeStr k.data
          (':' :: ' ' :: (ser v lvlE ++ '\n' :: (jind lvlC ++ '}' :: rest))) _ hlen
        simp only [List.length_append, List.length_cons] at hkey
        have hws1 : skipWs (':' :: ' ' :: (ser v lvlE ++ '\n' :: (jind lvlC ++ '}' :: rest))) =
            ':' :: ' ' :: (ser v lvlE ++ '\n' :: (jind lvlC ++ '}' :: rest)) :=
          skipWs_cons_not_ws (by decide) _
        have hws2 : skipWs (' ' :: (ser v lvlE ++ '\n' :: (jind lvlC ++ '}' :: rest))) =
            ser v lvlE ++ '\n' :: (jind lvlC ++ '}' :: rest) := by
          obtain ⟨c, r, hc, hw, _, _⟩ := ser_head v lvlE
          rw [skipWs_cons_ws (by decide), hc, List.cons_append,
            skipWs_cons_not_ws hw, ← List.cons_append, ← hc]
        have hp := ihP v lvlE ('\n' :: (jind lvlC ++ '}' :: rest))
          (by simp only [jsizeKV] at hsz; have := jsizeKV_pos ([] : List (String × Json)); omega)
          (by simp [isDelim])
        have hws3 : skipWs ('\n' :: (jind lvlC ++ '}' :: rest)) = '}' :: rest := by
          rw [skipWs_cons_ws (by decide), skipWs_jind, skipWs_cons_not_ws (by decide)]
        simp [hkey, hws1, hws2, hws3, hp]
      | cons kv2 kvs2 =>
        obtain ⟨k2, v2⟩ := kv2
        rw [show serKVs (k, v) ((k2, v2) :: kvs2) lvlE =
          serKV k v lvlE ++ ',' :: '\n' :: (jind lvlE ++ serKVs (k2, v2) kvs2 lvlE) from by
            simp [serKVs]]
        rw [show serKV k v lvlE = '"' :: (encodeStr k.data ++ '"' :: ':' :: ' ' :: ser v lvlE)
          from by simp [serKV]]
        simp only [List.cons_append, List.append_assoc]
        simp only [parseObjItems]
        have hlen : k.data.length <
            (encodeStr k.data ++ '"' :: ':' :: ' ' ::
              (ser v lvlE ++ ',' :: '\n' ::
                (jind lvlE ++ (serKVs (k2, v2) kvs2 lvlE ++
                  '\n' :: (jind lvlC ++ '}' :: rest))))).length + 1 := by
          have := encodeStr_len k.data
          simp only [List.length_append, List.length_cons]
          omega
        have hkey := parseStrBody_encodeStr k.data
          (':' :: ' ' :: (ser v lvlE ++ ',' :: '\n' ::
            (jind lvlE ++ (serKVs (k2, v2) kvs2 lvlE ++
              '\n' :: (jind lvlC ++ '}' :: rest))))) _ hlen
        simp only [List.length_append, List.length_cons] at hkey
        have hws1 : skipWs (':' :: ' ' :: (ser v lvlE ++ ',' :: '\n' ::
            (jind lvlE ++ (serKVs (k2, v2) kvs2 lvlE ++ '\n' :: (jind lvlC ++ '}' :: rest))))) =
            ':' :: ' ' :: (ser v lvlE ++ ',' :: '\n' ::
            (jind lvlE ++ (serKVs (k2, v2) kvs2 lvlE ++ '\n' :: (jind lvlC ++ '}' :: rest)))) :=
          skipWs_cons_not_ws (by decide) _
        have hws2 : skipWs (' ' :: (ser v lvlE ++ ',' :: '\n' ::
            (jind lvlE ++ (serKVs (k2, v2) kvs2 lvlE ++ '\n' :: (jind lvlC ++ '}' :: rest))))) =
            ser v lvlE ++ ',' :: '\n' ::
            (jind lvlE ++ (serKVs (k2, v2) kvs2 lvlE ++ '\n' :: (jind lvlC ++ '}' :: rest))) := by
          obtain ⟨c, r, hc, hw, _, _⟩ := ser_head v lvlE
          rw [skipWs_cons_ws (by decide), hc, List.cons_append,
            skipWs_cons_not_ws hw, ← List.cons_append, ← hc]
        have hp := ihP v lvlE
          (',' :: '\n' :: (jind lvlE ++ (serKVs (k2, v2) kvs2 lvlE ++
            '\n' :: (jind lvlC ++ '}' :: rest))))
          (by simp only [jsizeKV] at hsz; have := jsize_pos v2; have := jsizeKV_pos kvs2; omega)
          (by simp [isDelim])
        have hws3 : skipWs (',' :: '\n' :: (jind lvlE ++ (serKVs (k2, v2) kvs2 lvlE ++
            '\n' :: (jind lvlC ++ '}' :: rest)))) =
            ',' :: '\n' :: (jind lvlE ++ (serKVs (k2, v2) kvs2 lvlE ++
            '\n' :: (jind lvlC ++ '}' :: rest))) :=
          skipWs_cons_not_ws (by decide) _
        have hws4 : skipWs ('\n' :: (jind lvlE ++ (serKVs (k2, v2) kvs2 lvlE ++
            '\n' :: (jind lvlC ++ '}' :: rest)))) =
            serKVs (k2, v2) kvs2 lvlE ++ '\n' :: (jind lvlC ++ '}' :: rest) := by
          obtain ⟨r2, hr2⟩ := serKVs_head (k2, v2) kvs2 lvlE
          rw [skipWs_cons_ws (by decide), skipWs_jind, hr2, List.cons_append,
            skipWs_cons_not_ws (by decide), ← List.cons_append, ← hr2]
        have hq := ihR k2 v2 kvs2 ((k, v) :: acc) lvlE lvlC rest
          (by simp only [jsizeKV] at hsz ⊢; have := jsize_pos v; omega) hd
        simp [hkey, hws1, hws2, hws3, hws4, hp, hq, List.append_assoc]

theorem data_mk (l : List Char) : (String.mk l).data = l := rfl

theorem jsize_le_ser : ∀ n : Nat,
    (∀ v lvl, jsize v ≤ n → jsize v ≤ (ser v lvl).length) ∧
    (∀ x xs lvl, jsize x + jsizeL xs ≤ n →
      jsize x + jsizeL xs ≤ 1 + (serElems x xs lvl).length) ∧
    (∀ k v kvs lvl, jsize v + jsizeKV kvs ≤ n →
      jsize v + jsizeKV kvs ≤ 1 + (serKVs (k, v) kvs lvl).length) := by
  intro n
  induction n with
  | zero =>
    refine ⟨fun v lvl h => absurd h (by have := jsize_pos v; omega),
      fun x xs lvl h => absurd h ?_, fun k v kvs lvl h => absurd h ?_⟩
    · have h1 := jsize_pos x
      have h2 := jsizeL_pos xs
      omega
    · have h1 := jsize_pos v
      have h2 := jsizeKV_pos kvs
      omega
  | succ n ih =>
    obtain ⟨ihA, ihB, ihC⟩ := ih
    refine ⟨?_, ?_, ?_⟩
    · intro v lvl h
      cases v with
      | null => simp [jsize, ser]
      | bool b => cases b <;> simp [jsize, ser]
      | int i =>
        by_cases hi : i < 0 <;>
          obtain ⟨c, r, hc, _, _⟩ := natToChars_shape i.natAbs <;>
          simp [jsize, ser, intToChars, hi, hc]
      | str s => simp [jsize, ser]
      | arr xs =>
        cases xs with
        | nil => simp [jsize, jsizeL, ser]
        | cons x xs =>
          have hb := ihB x xs (lvl + 1) (by simp only [jsize, jsizeL] at h; omega)
          simp only [jsize, jsizeL, ser, List.length_append, List.length_cons, jind,
            List.length_replicate] at *
          omega
      | obj kvs =>
        cases kvs with
        | nil => simp [jsize, jsizeKV, ser]
        | cons kv kvs =>
          obtain ⟨k, v⟩ := kv
          have hb := ihC k v kvs (lvl + 1) (by simp only [jsize, jsizeKV] at h; omega)
          simp only [jsize, jsizeKV, ser, List.length_append, List.length_cons, jind,
            List.length_replicate] at *
          omega
    · intro x xs lvl h
      cases xs with
      | nil =>
        have ha := ihA x lvl (by simp only [jsizeL] at h; omega)
        simp only [jsizeL, serElems] at *
        omega
      | cons y ys =>
        have ha := ihA x lvl (by
          simp only [jsizeL] at h
          have := jsize_pos y
          have := jsizeL_pos ys
          omega)
        have hb := ihB y ys lvl (by
          simp only [jsizeL] at h
          have := jsize_pos x
          omega)
        simp only [jsizeL, serElems, List.length_append, List.length_cons, jind,
          List.length_replicate] at *
        omega
    · intro k v kvs lvl h
      cases kvs with
      | nil =>
        have ha := ihA v lvl (by simp only [jsizeKV] at h; omega)
        have he := encodeStr_len k.data
        simp only [jsizeKV, serKVs, serKV, List.length_append, List.length_cons] at *
        omega
      | cons kv2 kvs2 =>
        obtain ⟨k2, v2⟩ := kv2
        have ha := ihA v lvl (by
          simp only [jsizeKV] at h
          have := jsize_pos v2
          have := jsizeKV_pos kvs2
          omega)
        have hb := ihC k2 v2 kvs2 lvl (by
          simp only [jsizeKV] at h
          have := jsize_pos v
          omega)
        simp only [jsizeKV, serKVs, serKV, List.length_append, List.length_cons, jind,
          List.length_replicate] at *
        omega

theorem loads_dumps (v : Json) : loads (dumps v) = some v := by
  have hsize : jsize v ≤ (ser v 0).length := (jsize_le_ser (jsize v)).1 v 0 le_rfl
  obtain ⟨c, r, hc, hw, _, _⟩ := ser_head v 0
  have hp := (parse_ser_aux ((ser v 0).length + 1)).1 v 0 [] (by omega) (by simp [isDelim])
  rw [List.append_nil] at hp
  simp only [loads, dumps, data_mk]
  rw [hc, skipWs_cons_not_ws hw, ← hc, hp]
  simp [skipWs]

/-- Does the adapter see a session able to receive log notifications (a
truthy wrapped context with a `session` that has `send_log_message`)? -/
def hasCapableLogSession (c : ExtendedRequestContext) : Bool :=
  match c.original_ctx with
  | none => false
  | some o =>
    match o.session with
    | none => false
    | some s => s.has_send_log_message

/-- Claim C1: for every exception raised by the module's `call_tool` during a
tool invocation, the protocol-level `handle_call_tool` does not propagate the
exception: it returns `Except.ok` (the protocol-level call reports success)
carrying exactly one text item whose text is exactly `"Error: " ++ str(e)`. -/
theorem claim_C1_call_tool_error_payload (core : MCPServerCore) (reqCtx : Option OrigCtx)
    (name : String) (arguments : Option Args) (e : PyExc)
    (hargs : truthyArgs arguments = true)
    (hcall : core.module_manager.call_tool name (arguments.getD [])
      (ExtendedRequestContext.mk reqCtx) = Except.error e) :
    handle_call_tool core reqCtx name arguments =
      ([Event.printOut ("Error in tool " ++ name ++ ": " ++ e.toStr)],
       Except.ok [TextContent.mk "text" ("Error: " ++ e.toStr)]) := by
  simp [handle_call_tool, hargs, hcall]

theorem claim_C1_witness :
    handle_call_tool
      ⟨⟨fun _ _ _ => Except.error (PyExc.other "boom"), Except.ok [], Except.ok [],
        fun _ _ => Except.error (PyExc.valueError "nope")⟩, none, none⟩
      none "hello" (some [("name", Json.str "Ada")]) =
      ([Event.printOut ("Error in tool " ++ "hello" ++ ": " ++ "boom")],
       Except.ok [TextContent.mk "text" ("Error: " ++ "boom")]) :=
  claim_C1_call_tool_error_payload
    ⟨⟨fun _ _ _ => Except.error (PyExc.other "boom"), Except.ok [], Except.ok [],
      fun _ _ => Except.error (PyExc.valueError "nope")⟩, none, none⟩
    none "hello" (some [("name", Json.str "Ada")]) (PyExc.other "boom") rfl rfl

/-- Claim C2: for every tool invocation whose arguments payload is missing or
empty (`None` or an empty dict), `handle_call_tool` returns `Except.ok` (it
never raises to the transport) carrying an error-text item whose text
contains "Missing arguments" (witnessed by an explicit decomposition of the
text around that substring). -/
theorem claim_C2_missing_arguments (core : MCPServerCore) (reqCtx : Option OrigCtx)
    (name : String) (arguments : Option Args)
    (hargs : truthyArgs arguments = false) :
    handle_call_tool core reqCtx name arguments =
      ([Event.printOut ("Error in tool " ++ name ++ ": " ++ "Missing arguments")],
       Except.ok [TextContent.mk "text" ("Error: " ++ "Missing arguments")]) ∧
    ∃ pre post, ("Error: " ++ "Missing arguments" : String) =
      pre ++ "Missing arguments" ++ post := by
  refine ⟨by simp [handle_call_tool, hargs, PyExc.toStr], "Error: ", "", by decide⟩

theorem claim_C2_witness :
    handle_call_tool
      ⟨⟨fun _ _ _ => Except.ok Json.null, Except.ok [], Except.ok [],
        fun _ _ => Except.error (PyExc.valueError "nope")⟩, none, none⟩
      none "hello" none =
      ([Event.printOut ("Error in tool " ++ "hello" ++ ": " ++ "Missing arguments")],
       Except.ok [TextContent.mk "text" ("Error: " ++ "Missing arguments")]) :=
  (claim_C2_missing_arguments
    ⟨⟨fun _ _ _ => Except.ok Json.null, Except.ok [], Except.ok [],
      fun _ _ => Except.error (PyExc.valueError "nope")⟩, none, none⟩
    none "hello" none rfl).1

/-- Claim C3, counterexample: in the packaged copy (`core.py`), an invocation
of `report_progress` on a context that carries NO progress token (here:
`meta` absent, request id "1", live session whose sends succeed) still sends
a progress notification — with the synthetic token `str(request_id)` — so the
claim "returns immediately without sending any progress notification" is
false for that copy. -/
theorem claim_C3_counterexample :
    metaToken (some ⟨some ⟨true, fun _ _ _ => none, true, fun _ _ _ => none⟩, none, "1"⟩) =
      none ∧
    hasProgressNote (reportProgressCore
      ⟨some ⟨some ⟨true, fun _ _ _ => none, true, fun _ _ _ => none⟩, none, "1"⟩⟩
      ⟨"0.5"⟩ none) = true :=
  ⟨rfl, rfl⟩

/-- Claim C3, amended: the two copies diverge.  In `MCPServerFramework.py`
(v1.3.0) `report_progress` sends no progress notification whenever the
underlying context carries no progress token (the claim as stated).  In the
packaged `core.py` copy, when no token is present the method instead falls
back to `str(request_id)` as a synthetic token and sends the notification
through a capable session. -/
theorem claim_C3_report_progress_amended :
    (∀ (c : ExtendedRequestContext) (p : FloatVal) (t : Option FloatVal),
      metaToken c.original_ctx = none →
      hasProgressNote (reportProgressV13 c p t) = false) ∧
    (∀ (c : ExtendedRequestContext) (o : OrigCtx) (s : Session) (p : FloatVal)
      (t : Option FloatVal),
      c.original_ctx = some o → o.session = some s →
      metaToken c.original_ctx = none →
      s.has_send_progress_notification = true →
      s.send_progress_outcome (Token.str o.request_id_str) p t = none →
      reportProgressCore c p t = [Event.progressNote (Token.str o.request_id_str) p t]) := by
  constructor
  · intro c p t h
    rcases hco : c.original_ctx with _ | o
    · simp [reportProgressV13, hco, hasProgressNote]
    · rw [hco] at h
      rcases hs : o.session with _ | s
      · simp [reportProgressV13, hco, hs, hasProgressNote]
      · simp only [reportProgressV13, hco, hs, h]
        rcases hm : o.meta with _ | m
        · simp [hasProgressNote]
        · simp [hasProgressNote]
  · intro c o s p t hc hs hm hcap hout
    rw [hc] at hm
    simp [reportProgressCore, hc, hs, hm, hcap, hout]

theorem claim_C3_witness :
    hasProgressNote (reportProgressV13
      ⟨some ⟨some ⟨true, fun _ _ _ => none, true, fun _ _ _ => none⟩, none, "7"⟩⟩
      ⟨"0.25"⟩ none) = false ∧
    reportProgressCore
      ⟨some ⟨some ⟨true, fun _ _ _ => none, true, fun _ _ _ => none⟩, none, "7"⟩⟩
      ⟨"0.25"⟩ none =
      [Event.progressNote (Token.str "7") ⟨"0.25"⟩ none] :=
  ⟨claim_C3_report_progress_amended.1
      ⟨some ⟨some ⟨true, fun _ _ _ => none, true, fun _ _ _ => none⟩, none, "7"⟩⟩
      ⟨"0.25"⟩ none rfl,
   claim_C3_report_progress_amended.2
      ⟨some ⟨some ⟨true, fun _ _ _ => none, true, fun _ _ _ => none⟩, none, "7"⟩⟩
      ⟨some ⟨true, fun _ _ _ => none, true, fun _ _ _ => none⟩, none, "7"⟩
      ⟨true, fun _ _ _ => none, true, fun _ _ _ => none⟩
      ⟨"0.25"⟩ none rfl rfl rfl rfl rfl⟩

/-- Claim C4: every adapter log method (info / warning / error / debug is an
instance of `logMethod` at its severity) first writes the message to the
process-wide local log sink at the matching severity unconditionally (the
trace always starts with that local write, whatever the session oracle
does); remote forwarding is attempted only when the wrapped context exposes
a session with the log-notification capability (without one the trace is the
local write alone); and an exception raised by the remote send is caught and
logged locally — the method still returns its trace, never propagating. -/
theorem claim_C4_log_methods (c : ExtendedRequestContext) (lvl : LogLevel) (msg ln : String) :
    ExtendedRequestContext.info c msg ln = logMethod c LogLevel.info msg ln ∧
    ExtendedRequestContext.warning c msg ln = logMethod c LogLevel.warning msg ln ∧
    ExtendedRequestContext.error c msg ln = logMethod c LogLevel.error msg ln ∧
    ExtendedRequestContext.debug c msg ln = logMethod c LogLevel.debug msg ln ∧
    (logMethod c lvl msg ln).head? = some (Event.localLog lvl msg) ∧
    (hasCapableLogSession c = false → logMethod c lvl msg ln = [Event.localLog lvl msg]) ∧
    (∀ o s, c.original_ctx = some o → o.session = some s → s.has_send_log_message = true →
      (s.send_log_outcome lvl msg ln = none →
        logMethod c lvl msg ln = [Event.localLog lvl msg, Event.remoteLog lvl msg ln]) ∧
      (∀ e, s.send_log_outcome lvl msg ln = some e →
        logMethod c lvl msg ln =
          [Event.localLog lvl msg,
           Event.localLog LogLevel.error ("向客户端发送日志消息失败: " ++ e.toStr)])) := by
  refine ⟨rfl, rfl, rfl, rfl, rfl, ?_, ?_⟩
  · intro h
    rcases hco : c.original_ctx with _ | o
    · simp [logMethod, sendLogPart, hco]
    · rcases hs : o.session with _ | s
      · simp [logMethod, sendLogPart, hco, hs]
      · simp only [hasCapableLogSession, hco, hs] at h
        simp [logMethod, sendLogPart, hco, hs, h]
  · intro o s hco hs hcap
    constructor
    · intro hout
      simp [logMethod, sendLogPart, hco, hs, hcap, hout]
    · intro e hout
      simp [logMethod, sendLogPart, hco, hs, hcap, hout]

theorem claim_C4_witness :
    logMethod ⟨some ⟨some ⟨true, fun _ _ _ => some (PyExc.other "down"),
        false, fun _ _ _ => none⟩, none, "1"⟩⟩ LogLevel.info "hi" "default" =
      [Event.localLog LogLevel.info "hi",
       Event.localLog LogLevel.error ("向客户端发送日志消息失败: " ++ "down")] :=
  ((claim_C4_log_methods
      ⟨some ⟨some ⟨true, fun _ _ _ => some (PyExc.other "down"),
        false, fun _ _ _ => none⟩, none, "1"⟩⟩ LogLevel.info "hi"
      "default").2.2.2.2.2.2
    ⟨some ⟨true, fun _ _ _ => some (PyExc.other "down"), false, fun _ _ _ => none⟩, none, "1"⟩
    ⟨true, fun _ _ _ => some (PyExc.other "down"), false, fun _ _ _ => none⟩
    rfl rfl rfl).2 (PyExc.other "down") rfl

/-- Claim C5: whenever the delegated prompt-list function (the external
override if present, else the module's `get_prompt_templates`) raises, the
registered `handle_list_prompts` returns `Except.ok []` (the empty list,
never re-raising) and its trace is exactly the local error log of the
exception. -/
theorem claim_C5_list_prompts_empty_on_error (core : MCPServerCore) (e : PyExc)
    (h : listPromptsDelegate core = Except.error e) :
    handle_list_prompts core =
      ([Event.localLog LogLevel.error ("获取提示模板列表出错: " ++ e.toStr)],
       Except.ok []) := by
  simp [handle_list_prompts, h]

theorem claim_C5_witness :
    handle_list_prompts
      ⟨⟨fun _ _ _ => Except.ok Json.null, Except.ok [], Except.ok [],
        fun _ _ => Except.error (PyExc.valueError "nope")⟩,
       some fun _ => Except.error (PyExc.other "bad list"), none⟩ =
      ([Event.localLog LogLevel.error ("获取提示模板列表出错: " ++ "bad list")],
       Except.ok []) :=
  claim_C5_list_prompts_empty_on_error
    ⟨⟨fun _ _ _ => Except.ok Json.null, Except.ok [], Except.ok [],
      fun _ _ => Except.error (PyExc.valueError "nope")⟩,
     some fun _ => Except.error (PyExc.other "bad list"), none⟩
    (PyExc.other "bad list") rfl

/-- Claim C6: whenever the delegated prompt-content function (the external
override if present, else the module's `get_prompt_content`) raises, the
registered `handle_get_prompt` logs the error and re-raises: the very same
exception propagates unchanged as the handler's outcome (it is not converted
to a default result). -/
theorem claim_C6_get_prompt_propagates (core : MCPServerCore) (name : String)
    (arguments : Option StrDict) (e : PyExc)
    (h : getPromptDelegate core name arguments = Except.error e) :
    handle_get_prompt core name arguments =
      ([Event.localLog LogLevel.debug
          ("获取提示模板: " ++ name ++ " 参数: " ++ argsRepr arguments),
        Event.localLog LogLevel.error ("获取提示模板内容出错: " ++ e.toStr)],
       Except.error e) := by
  simp [handle_get_prompt, h]

theorem claim_C6_witness :
    handle_get_prompt
      ⟨⟨fun _ _ _ => Except.ok Json.null, Except.ok [], Except.ok [],
        fun n _ => Except.error (PyExc.valueError ("未找到提示模板: " ++ n))⟩, none, none⟩
      "ghost" none =
      ([Event.localLog LogLevel.debug
          ("获取提示模板: " ++ "ghost" ++ " 参数: " ++ argsRepr none),
        Event.localLog LogLevel.error
          ("获取提示模板内容出错: " ++ ("未找到提示模板: " ++ "ghost"))],
       Except.error (PyExc.valueError ("未找到提示模板: " ++ "ghost"))) :=
  claim_C6_get_prompt_propagates
    ⟨⟨fun _ _ _ => Except.ok Json.null, Except.ok [], Except.ok [],
      fun n _ => Except.error (PyExc.valueError ("未找到提示模板: " ++ n))⟩, none, none⟩
    "ghost" none (PyExc.valueError ("未找到提示模板: " ++ "ghost")) rfl

/-- Claim C7: for every successful tool invocation, `handle_call_tool`
serializes the module's result dictionary into the single text payload with
`json.dumps(result, indent=2, ensure_ascii=False)`, and parsing that text
back as JSON (`loads`) yields a structure identical to the original result;
moreover every character from the space upward other than the quote and the
backslash — in particular every non-ASCII character — is emitted verbatim by
the serializer.  The witness instantiates this at the dictionary with
"message" mapped to "Hello, World!". -/
theorem claim_C7_result_roundtrip (core : MCPServerCore) (reqCtx : Option OrigCtx)
    (name : String) (arguments : Option Args) (result : Json)
    (hargs : truthyArgs arguments = true)
    (hcall : core.module_manager.call_tool name (arguments.getD [])
      (ExtendedRequestContext.mk reqCtx) = Except.ok result) :
    handle_call_tool core reqCtx name arguments =
      ([], Except.ok [TextContent.mk "text" (dumps result)]) ∧
    loads (dumps result) = some result ∧
    (∀ c : Char, 32 ≤ c.toNat → c ≠ '"' → c ≠ '\\' → encodeChar c = [c]) := by
  refine ⟨by simp [handle_call_tool, hargs, hcall], loads_dumps result, ?_⟩
  intro c h hq hb
  have h3 : c ≠ '\n' := by intro he; rw [he] at h; exact absurd h (by decide)
  have h4 : c ≠ '\r' := by intro he; rw [he] at h; exact absurd h (by decide)
  have h5 : c ≠ '\t' := by intro he; rw [he] at h; exact absurd h (by decide)
  have h6 : c ≠ Char.ofNat 8 := by intro he; rw [he] at h; exact absurd h (by decide)
  have h7 : c ≠ Char.ofNat 12 := by intro he; rw [he] at h; exact absurd h (by decide)
  simp [encodeChar, hq, hb, h3, h4, h5, h6, h7, show ¬c.toNat < 32 from by omega]

theorem claim_C7_witness :
    handle_call_tool
      ⟨⟨fun _ _ _ => Except.ok (Json.obj [("message", Json.str "Hello, World!")]),
        Except.ok [], Except.ok [],
        fun _ _ => Except.error (PyExc.valueError "nope")⟩, none, none⟩
      none "hello" (some [("name", Json.str "Ada")]) =
      ([], Except.ok [TextContent.mk "text"
        (dumps (Json.obj [("message", Json.str "Hello, World!")]))]) ∧
    loads (dumps (Json.obj [("message", Json.str "Hello, World!")])) =
      some (Json.obj [("message", Json.str "Hello, World!")]) :=
  ⟨(claim_C7_result_roundtrip
      ⟨⟨fun _ _ _ => Except.ok (Json.obj [("message", Json.str "Hello, World!")]),
        Except.ok [], Except.ok [],
        fun _ _ => Except.error (PyExc.valueError "nope")⟩, none, none⟩
      none "hello" (some [("name", Json.str "Ada")])
      (Json.obj [("message", Json.str "Hello, World!")]) rfl rfl).1,
   (claim_C7_result_roundtrip
      ⟨⟨fun _ _ _ => Except.ok (Json.obj [("message", Json.str "Hello, World!")]),
        Except.ok [], Except.ok [],
        fun _ _ => Except.error (PyExc.valueError "nope")⟩, none, none⟩
      none "hello" (some [("name", Json.str "Ada")])
      (Json.obj [("message", Json.str "Hello, World!")]) rfl rfl).2.1⟩

/-- Claim C8: `_trigger_shutdown` always performs the shutdown-event set
first; when `os.kill` succeeds it then sends exactly the platform-appropriate
self-directed signal (`CTRL_BREAK_EVENT` on win32, `SIGTERM` otherwise); and
when `os.kill` itself raises, the run ends with a logged error followed by
`sys.exit(1)` — a forced immediate exit with non-zero status, so this step
never hangs. -/
theorem claim_C8_trigger_shutdown (env : ShutdownEnv) :
    (trigger_shutdown env).head? = some ShutAct.setShutdownEvent ∧
    (env.win32 = true → env.kill_outcome Sig.ctrlBreak = none →
      trigger_shutdown env = [ShutAct.setShutdownEvent, ShutAct.killSignal Sig.ctrlBreak]) ∧
    (env.win32 = false → env.kill_outcome Sig.sigterm = none →
      trigger_shutdown env = [ShutAct.setShutdownEvent, ShutAct.killSignal Sig.sigterm]) ∧
    (∀ e, env.win32 = true → env.kill_outcome Sig.ctrlBreak = some e →
      trigger_shutdown env = [ShutAct.setShutdownEvent,
        ShutAct.logError ("发送CTRL_BREAK_EVENT失败: " ++ e.toStr), ShutAct.exitProcess 1]) ∧
    (∀ e, env.win32 = false → env.kill_outcome Sig.sigterm = some e →
      trigger_shutdown env = [ShutAct.setShutdownEvent,
        ShutAct.logError ("发送SIGTERM失败: " ++ e.toStr), ShutAct.exitProcess 1]) := by
  refine ⟨by simp [trigger_shutdown], ?_, ?_, ?_, ?_⟩
  · intro hw hk
    simp [trigger_shutdown, hw, hk]
  · intro hw hk
    simp [trigger_shutdown, hw, hk]
  · intro e hw hk
    simp [trigger_shutdown, hw, hk]
  · intro e hw hk
    simp [trigger_shutdown, hw, hk]

theorem claim_C8_witness :
    trigger_shutdown ⟨false, fun _ => some (PyExc.other "EPERM")⟩ =
      [ShutAct.setShutdownEvent,
       ShutAct.logError ("发送SIGTERM失败: " ++ "EPERM"), ShutAct.exitProcess 1] :=
  (claim_C8_trigger_shutdown ⟨false, fun _ => some (PyExc.other "EPERM")⟩).2.2.2.2
    (PyExc.other "EPERM") rfl rfl

/-- Claim C9 (implicit): unlike `handle_call_tool` and
`handle_list_prompts`, the registered `handle_list_tools` wraps the module
call in no exception handling: whenever the module's `get_tools` raises, the
very same exception is the protocol-level outcome of `list_tools`, never an
in-band error payload or an empty list. -/
theorem claim_C9_list_tools_propagates (core : MCPServerCore) (e : PyExc)
    (h : core.module_manager.get_tools = Except.error e) :
    handle_list_tools core = Except.error e ∧
    ∀ r, handle_list_tools core ≠ Except.ok r := by
  refine ⟨h, ?_⟩
  intro r hr
  rw [handle_list_tools, h] at hr
  cases hr

theorem claim_C9_witness :
    handle_list_tools
      ⟨⟨fun _ _ _ => Except.ok Json.null, Except.error (PyExc.other "tools broken"),
        Except.ok [], fun _ _ => Except.error (PyExc.valueError "nope")⟩, none, none⟩ =
      Except.error (PyExc.other "tools broken") :=
  (claim_C9_list_tools_propagates
    ⟨⟨fun _ _ _ => Except.ok Json.null, Except.error (PyExc.other "tools broken"),
      Except.ok [], fun _ _ => Except.error (PyExc.valueError "nope")⟩, none, none⟩
    (PyExc.other "tools broken") rfl).1

/-- Claim C10 (implicit): the default `BaseModuleManager` bodies:
`initialize` (here `initializeBase`), `get_tools` and `call_tool` raise
`NotImplementedError` for every input, `get_prompt_templates` returns the
empty list for every call, and `get_prompt_content` raises a `ValueError`
for every template name and argument mapping — there is no name for which
the default implementation returns a result. -/
theorem claim_C10_base_module_manager_defaults :
    (∀ kwargs, BaseModuleManager.initializeBase kwargs =
      Except.error (PyExc.notImplementedError "子类必须实现initialize方法")) ∧
    BaseModuleManager.get_tools =
      Except.error (PyExc.notImplementedError "子类必须实现get_tools方法") ∧
    (∀ name arguments ctx, BaseModuleManager.call_tool name arguments ctx =
      Except.error (PyExc.notImplementedError "子类必须实现call_tool方法")) ∧
    BaseModuleManager.get_prompt_templates = Except.ok ([] : List Prompt) ∧
    (∀ name arguments, BaseModuleManager.get_prompt_content name arguments =
      Except.error (PyExc.valueError ("未找到提示模板: " ++ name))) ∧
    (∀ name arguments r, BaseModuleManager.get_prompt_content name arguments ≠
      Except.ok r) := by
  refine ⟨fun _ => rfl, rfl, fun _ _ _ => rfl, rfl, fun _ _ => rfl, ?_⟩
  intro name arguments r hr
  rw [BaseModuleManager.get_prompt_content] at hr
  cases hr

theorem claim_C10_witness :
    BaseModuleManager.get_prompt_templates = Except.ok ([] : List Prompt) ∧
    BaseModuleManager.get_prompt_content "ghost" none =
      Except.error (PyExc.valueError ("未找到提示模板: " ++ "ghost")) :=
  ⟨claim_C10_base_module_manager_defaults.2.2.2.1,
   claim_C10_base_module_manager_defaults.2.2.2.2.1 "ghost" none⟩
